import Mathlib

/-!
FluxoNext finance engine — formal model.

Shallow embedding of the value-resolution / installment engine of the
FluxoNext personal-finance app (`src/hooks/useFinance.ts`,
`src/hooks/useFinance.tsx`, the `Summary` and `Dashboard` components).

Conventions of the embedding:

* `monthYear` strings of the canonical shape `YYYY-MM` are represented by a
  `MonthYear` structure holding the year and the (1-based) month.  The
  source compares such strings lexicographically (`localeCompare`, `<=`);
  for canonical strings that order coincides with the numeric order of
  `year * 100 + month`, which is the order installed on `MonthYear`.
* JavaScript `number` values are represented by `ℚ` in the main model.
  The special IEEE values matter only for the division-by-zero claim; a
  dedicated `JSNum` model with explicit `Infinity`/`NaN` is used there.
* `undefined`-able fields become `Option`; the JS `x ?? d` is `Option.getD`,
  and the numeric `x || d` (which also treats `0` as falsy) is `orNatJS`.
* `uuidv4()` calls are modelled by injected identifier parameters.
-/

/-- A calendar month, the model of a canonical `YYYY-MM` string. -/
structure MonthYear where
  year : Nat
  month : Nat
deriving DecidableEq, Repr

namespace MonthYear

/-- Numeric key whose order agrees with lexicographic comparison of the
canonical `YYYY-MM` strings. -/
def key (m : MonthYear) : Nat := m.year * 100 + m.month

instance : LE MonthYear := ⟨fun a b => a.key ≤ b.key⟩

instance : LT MonthYear := ⟨fun a b => a.key < b.key⟩

instance decLE : ∀ a b : MonthYear, Decidable (a ≤ b) :=
  fun a b => (inferInstance : Decidable (a.key ≤ b.key))

instance decLT : ∀ a b : MonthYear, Decidable (a < b) :=
  fun a b => (inferInstance : Decidable (a.key < b.key))

/-- `date-fns` `addMonths` on a month-resolution date (the source always
parses `YYYY-MM-01`, shifts by whole months and reformats to `yyyy-MM`). -/
def addMonths (m : MonthYear) (i : Nat) : MonthYear :=
  let t := m.year * 12 + (m.month - 1) + i
  ⟨t / 12, t % 12 + 1⟩

/-- Count of whole months since year 0, the linear timeline position. -/
def toIndex (m : MonthYear) : Nat := m.year * 12 + (m.month - 1)

/-- A month record that corresponds to an actual `YYYY-MM` string. -/
def Valid (m : MonthYear) : Prop := 1 ≤ m.month ∧ m.month ≤ 12

instance decValid : ∀ m : MonthYear, Decidable m.Valid :=
  fun _ => (inferInstance : Decidable (_ ∧ _))

/-- Zero-pad to two digits, as `format(date, 'yyyy-MM')` does. -/
def pad2 (n : Nat) : String := (if n < 10 then "0" else "") ++ toString n

/-- The canonical `YYYY-MM` string of a month (`format(date, 'yyyy-MM')`). -/
def render (m : MonthYear) : String := toString m.year ++ "-" ++ pad2 m.month

end MonthYear

/-- `Category` record (`src/types.ts`). -/
structure Category where
  id : String
  name : String
  color : String
  isIncomeCategory : Bool
deriving DecidableEq, Repr

/-- `CreditCard` record (`src/types.ts`). -/
structure CreditCard where
  id : String
  name : String
  closingDay : Nat
  dueDay : Nat
  color : String
deriving DecidableEq, Repr

/-- `ValueHistoryItem` record (`src/types.ts`). -/
structure ValueHistoryItem where
  monthYear : MonthYear
  value : ℚ
  paymentMethod : Option String
deriving DecidableEq, Repr

/-- `Income.type` discriminator. -/
inductive IncomeType where
  | fixed
  | temporary
deriving DecidableEq, Repr

/-- `Income` record (`src/types.ts`). -/
structure Income where
  id : String
  title : String
  categoryId : String
  type : IncomeType
  paymentMethod : Option String
  valueHistory : Option (List ValueHistoryItem)
  amount : Option ℚ
  startMonth : Option MonthYear
  durationMonths : Option Nat
deriving DecidableEq, Repr

/-- `Expense.type` discriminator. -/
inductive ExpenseType where
  | fixed
  | one_time
  | installment
deriving DecidableEq, Repr

/-- The `installments: {current, total}` sub-object of `Expense`. -/
structure InstallmentsInfo where
  current : Nat
  total : Nat
deriving DecidableEq, Repr

/-- `Expense` record (`src/types.ts`).  `createdAt` is omitted: the engine
never reads it. -/
structure Expense where
  id : String
  title : String
  categoryId : String
  type : ExpenseType
  purchaseDate : String
  billingMonth : MonthYear
  isInstallment : Bool
  totalValue : ℚ
  installmentValue : ℚ
  installments : Option InstallmentsInfo
  paymentMethod : String
  isPaid : Bool
  originalId : Option String
  valueHistory : Option (List ValueHistoryItem)
deriving DecidableEq, Repr

/-- Return type of `getExpenseValueForMonth`. -/
structure ResolvedExpense where
  value : ℚ
  paymentMethod : String
deriving DecidableEq, Repr

/-- `history.filter(h => h.monthYear <= monthYear)
       .sort((a, b) => b.monthYear.localeCompare(a.monthYear))[0]`
from `getIncomeValueForMonth` / `getExpenseValueForMonth`
(`useFinance.ts:428-430, 439-441`); JS `Array.prototype.sort` is stable,
hence the stable `mergeSort`. -/
def latestAtOrBefore (h : List ValueHistoryItem) (m : MonthYear) :
    Option ValueHistoryItem :=
  ((h.filter (fun x => x.monthYear ≤ m)).mergeSort
    (fun a b => decide (b.monthYear ≤ a.monthYear))).head?

/-- `getIncomeValueForMonth` (`useFinance.ts:415-434`).  The guard
`!income.startMonth || !income.durationMonths` treats the JS-falsy `0`
duration like an absent one. -/
def getIncomeValueForMonth (income : Income) (monthYear : MonthYear) : ℚ :=
  match income.type with
  | .temporary =>
    match income.startMonth, income.durationMonths with
    | some start, some d =>
      if d = 0 then 0
      else
        let e := start.addMonths (d - 1)
        if start ≤ monthYear ∧ monthYear ≤ e then income.amount.getD 0 else 0
    | _, _ => 0
  | .fixed =>
    match income.valueHistory with
    | none => 0
    | some [] => 0
    | some (first :: rest) =>
      match latestAtOrBefore (first :: rest) monthYear with
      | some applicable => applicable.value
      | none => first.value

/-- `getExpenseValueForMonth` (`useFinance.ts:436-453`). -/
def getExpenseValueForMonth (expense : Expense) (monthYear : MonthYear) :
    ResolvedExpense :=
  match expense.type with
  | .fixed =>
    match expense.valueHistory with
    | none => ⟨0, expense.paymentMethod⟩
    | some [] => ⟨0, expense.paymentMethod⟩
    | some (first :: rest) =>
      match latestAtOrBefore (first :: rest) monthYear with
      | some applicable =>
        ⟨applicable.value, applicable.paymentMethod.getD expense.paymentMethod⟩
      | none =>
        ⟨first.value, first.paymentMethod.getD expense.paymentMethod⟩
  | _ =>
    if expense.billingMonth = monthYear then
      ⟨expense.installmentValue, expense.paymentMethod⟩
    else
      ⟨0, expense.paymentMethod⟩

/-- JS `x?.f || d` for a numeric field: `0` is falsy, so it also falls back. -/
def orNatJS (o : Option Nat) (d : Nat) : Nat :=
  match o with
  | some n => if n = 0 then d else n
  | none => d

/-- First-defined choice, the effect of a later spread key overriding an
earlier one (`u` wins when present). -/
def orOpt {α : Type} (u : Option α) (e : Option α) : Option α :=
  match u with
  | some v => some v
  | none => e

/-- A `Partial<Expense>` updates object.  Fields no call site ever updates
(`id`, `type`, `originalId`, `createdAt`) are omitted. -/
structure ExpenseUpdates where
  title : Option String
  categoryId : Option String
  purchaseDate : Option String
  billingMonth : Option MonthYear
  isInstallment : Option Bool
  totalValue : Option ℚ
  installmentValue : Option ℚ
  installments : Option InstallmentsInfo
  paymentMethod : Option String
  isPaid : Option Bool
  valueHistory : Option (List ValueHistoryItem)
deriving DecidableEq, Repr

/-- The spread `{ ...e, ...updates }`. -/
def applyUpdates (e : Expense) (u : ExpenseUpdates) : Expense :=
  { e with
    title := u.title.getD e.title
    categoryId := u.categoryId.getD e.categoryId
    purchaseDate := u.purchaseDate.getD e.purchaseDate
    billingMonth := u.billingMonth.getD e.billingMonth
    isInstallment := u.isInstallment.getD e.isInstallment
    totalValue := u.totalValue.getD e.totalValue
    installmentValue := u.installmentValue.getD e.installmentValue
    installments := orOpt u.installments e.installments
    paymentMethod := u.paymentMethod.getD e.paymentMethod
    isPaid := u.isPaid.getD e.isPaid
    valueHistory := orOpt u.valueHistory e.valueHistory }

/-- `updateExpense` (`useFinance.ts:210-248`), the state transformer applied
to `prev.expenses`.  When the target belongs to an installment series
(`originalId` set) and the update changes `totalValue` or
`installments.total`, the target and all later parcels are re-projected;
otherwise only records with the target id are spread-updated. -/
def updateExpense (expenses : List Expense) (id : String)
    (u : ExpenseUpdates) : List Expense :=
  match expenses.find? (fun e => e.id == id) with
  | none => expenses
  | some expense =>
    if expense.originalId.isSome ∧ (u.totalValue.isSome ∨ u.installments.isSome) then
      let totalValue := u.totalValue.getD expense.totalValue
      let totalInstallments : Nat :=
        (u.installments.map (fun i => i.total)).getD
          ((expense.installments.map (fun i => i.total)).getD 1)
      let installmentValue := totalValue / (totalInstallments : ℚ)
      expenses.map (fun e =>
        match e.installments with
        | some ei =>
          if e.originalId = expense.originalId ∧
             orNatJS (expense.installments.map (fun i => i.current)) 1 ≤ ei.current then
            { applyUpdates e u with
              totalValue := totalValue
              installmentValue := installmentValue
              installments := some { ei with total := totalInstallments } }
          else if e.id = id then applyUpdates e u else e
        | none => if e.id = id then applyUpdates e u else e)
    else
      expenses.map (fun e => if e.id = id then applyUpdates e u else e)

/-- The three edit scopes of the scope-aware `updateExpense`. -/
inductive EditScope where
  | only
  | future
  | all
deriving DecidableEq, Repr

/-- The scope-aware `updateExpense(id, updates, mode)`
(`useFinance.tsx:271-317`), the spec's `updateExpenseWithScope`.  The
spread `{ ...e.installments, total }` of an absent `installments` object
yields an object with an undefined `current`; an undefined `current`
behaves like `0` under every read the engine performs (`x >= c` is false
for `c >= 1`, and `x || 1` falls back), so it is modelled as `0`. -/
def updateExpenseScoped (expenses : List Expense) (id : String)
    (u : ExpenseUpdates) (mode : EditScope) : List Expense :=
  match expenses.find? (fun e => e.id == id) with
  | none => expenses
  | some expense =>
    if expense.originalId.isNone ∨ mode = .only then
      expenses.map (fun e => if e.id = id then applyUpdates expense u else e)
    else
      let currentInstallment :=
        orNatJS (expense.installments.map (fun i => i.current)) 1
      expenses.map (fun e =>
        if e.originalId = expense.originalId ∧
           (mode = .all ∨
             (e.installments.isSome ∧
               currentInstallment ≤ (e.installments.map (fun i => i.current)).getD 0)) then
          let newInstallmentValue :=
            if u.totalValue.isSome ∨ u.installments.isSome then
              (u.totalValue.getD e.totalValue) /
                (((u.installments.map (fun i => i.total)).getD
                  ((e.installments.map (fun i => i.total)).getD 1) : Nat) : ℚ)
            else e.installmentValue
          { applyUpdates e u with
            installmentValue := newInstallmentValue
            installments :=
              match u.installments with
              | some ui => some ⟨(e.installments.map (fun i => i.current)).getD 0, ui.total⟩
              | none => e.installments }
        else e)

/-- The base-expense argument of `addInstallmentExpense`
(`Omit<Expense, 'id' | 'installments' | 'billingMonth' | 'type'>`). -/
structure ExpenseBase where
  title : String
  categoryId : String
  purchaseDate : String
  isInstallment : Bool
  totalValue : ℚ
  installmentValue : ℚ
  paymentMethod : String
  isPaid : Bool
  valueHistory : Option (List ValueHistoryItem)
deriving DecidableEq, Repr

/-- `addInstallmentExpense` (`useFinance.ts:178-208`): the list of sibling
records the loop pushes.  The `uuidv4()` ids are modelled by the injected
`originalId` and per-index `freshId` supply. -/
def addInstallmentExpense (base : ExpenseBase) (startBillingMonth : MonthYear)
    (totalInstallments : Nat) (originalId : String) (freshId : Nat → String) :
    List Expense :=
  (List.range totalInstallments).map (fun i =>
    { id := freshId i
      title := base.title
      categoryId := base.categoryId
      type := .installment
      purchaseDate := base.purchaseDate
      billingMonth := startBillingMonth.addMonths i
      isInstallment := base.isInstallment
      totalValue := base.totalValue
      installmentValue := base.installmentValue
      installments := some ⟨i + 1, totalInstallments⟩
      paymentMethod := base.paymentMethod
      isPaid := base.isPaid
      originalId := some originalId
      valueHistory := base.valueHistory })

/-- One step of the dedup `reduce` of `updateFixedExpenseValue` /
`updateFixedIncomeValue` (`useFinance.ts:277-282, 342-347`):
`findIndex` an entry of the same month and overwrite it, else push. -/
def replaceOrPush (acc : List ValueHistoryItem) (curr : ValueHistoryItem) :
    List ValueHistoryItem :=
  match acc.findIdx? (fun h => h.monthYear == curr.monthYear) with
  | some idx => acc.set idx curr
  | none => acc ++ [curr]

/-- The dedup `reduce` over the sorted history. -/
def dedupHistory (l : List ValueHistoryItem) : List ValueHistoryItem :=
  l.foldl replaceOrPush []

/-- The history-push core shared by `updateFixedExpenseValue`
(`useFinance.ts:266-287`) and `updateFixedIncomeValue`
(`useFinance.ts:330-352`), the spec's `pushHistoryEntry`: append the new
entry, sort ascending by `monthYear` (stable, as JS `sort`), then
deduplicate keeping the last write per month. -/
def pushHistoryEntry (history : List ValueHistoryItem)
    (entry : ValueHistoryItem) : List ValueHistoryItem :=
  dedupHistory ((history ++ [entry]).mergeSort
    (fun a b => decide (a.monthYear ≤ b.monthYear)))

/-- `totalIncome` of the `Summary` component:
`incomes.reduce((acc, inc) => acc + getIncomeValueForMonth(inc, selectedMonth), 0)`. -/
def totalIncomeFor (incomes : List Income) (m : MonthYear) : ℚ :=
  incomes.foldl (fun acc inc => acc + getIncomeValueForMonth inc m) 0

/-- `monthlyExpenses` of the `Summary` component: each expense paired with
its resolved value/payment method, keeping those with a positive value. -/
def monthlyExpensesFor (expenses : List Expense) (m : MonthYear) :
    List (Expense × ResolvedExpense) :=
  (expenses.map (fun e => (e, getExpenseValueForMonth e m))).filter
    (fun p => 0 < p.2.value)

/-- `totalExpenses` of the `Summary` component. -/
def totalExpensesFor (expenses : List Expense) (m : MonthYear) : ℚ :=
  (monthlyExpensesFor expenses m).foldl (fun acc p => acc + p.2.value) 0

/-- `balance = totalIncome - totalExpenses` of the `Summary` component. -/
def balanceFor (incomes : List Income) (expenses : List Expense)
    (m : MonthYear) : ℚ :=
  totalIncomeFor incomes m - totalExpensesFor expenses m

/-- `data[name] || 0` on the accumulation object, modelled as an
association list in key-insertion order. -/
def lookupBucket (data : List (String × ℚ)) (name : String) : ℚ :=
  ((data.find? (fun p => p.1 == name)).map (fun p => p.2)).getD 0

/-- `data[name] = (data[name] || 0) + value`: bump the existing key or
append a new one. -/
def addToBucket (data : List (String × ℚ)) (name : String) (value : ℚ) :
    List (String × ℚ) :=
  if data.any (fun p => p.1 == name) then
    data.map (fun p => if p.1 == name then (p.1, p.2 + value) else p)
  else data ++ [(name, value)]

/-- `expenseCategories.find(c => c.id === e.categoryId)?.name || 'Outros'`
from the `Dashboard` `categoryData` memo. -/
def catNameOf (expenseCategories : List Category) (e : Expense) : String :=
  ((expenseCategories.find? (fun c => c.id == e.categoryId)).map
    (fun c => c.name)).getD "Outros"

/-- The `Dashboard` `categoryData` accumulation: resolved nonzero expense
values grouped by category display name. -/
def categoryData (expenses : List Expense) (expenseCategories : List Category)
    (m : MonthYear) : List (String × ℚ) :=
  expenses.foldl (fun data e =>
    if 0 < (getExpenseValueForMonth e m).value then
      addToBucket data (catNameOf expenseCategories e)
        (getExpenseValueForMonth e m).value
    else data) []

/-- The card display bucket of the `Dashboard` `cardUsageData` memo:
`'Dinheiro'` for cash, the card's name when the id resolves, `'Dinheiro'`
again when it dangles. -/
def cardBucketOf (cards : List CreditCard) (paymentMethod : String) : String :=
  if paymentMethod == "cash" then "Dinheiro"
  else
    match cards.find? (fun c => c.id == paymentMethod) with
    | some card => card.name
    | none => "Dinheiro"

/-- The `Dashboard` `cardUsageData` accumulation (before the final
descending sort). -/
def cardUsageAcc (expenses : List Expense) (cards : List CreditCard)
    (m : MonthYear) : List (String × ℚ) :=
  expenses.foldl (fun data e =>
    if 0 < (getExpenseValueForMonth e m).value then
      addToBucket data (cardBucketOf cards (getExpenseValueForMonth e m).paymentMethod)
        (getExpenseValueForMonth e m).value
    else data) []

/-- The `Dashboard` `cardUsageData` memo: the accumulated buckets sorted by
descending value (`.sort((a, b) => b.value - a.value)`). -/
def cardUsageData (expenses : List Expense) (cards : List CreditCard)
    (m : MonthYear) : List (String × ℚ) :=
  (cardUsageAcc expenses cards m).mergeSort (fun a b => decide (b.2 ≤ a.2))

/-- A JavaScript IEEE-754 double restricted to the distinctions this
development needs: an exact finite value, the two infinities and `NaN`.
Finite rounding is not modelled; only the special values produced by the
division below matter for the claims. -/
inductive JSNum where
  | finite (q : ℚ)
  | posInf
  | negInf
  | nan
deriving DecidableEq, Repr

/-- JavaScript `/` on `JSNum`: division by zero yields `Infinity` with the
dividend's sign (`NaN` for `0 / 0`), `NaN` is absorbing, and a finite
value divided by an infinity collapses to `0`. -/
def jsDiv : JSNum → JSNum → JSNum
  | .nan, _ => .nan
  | _, .nan => .nan
  | .finite a, .finite b =>
    if b = 0 then
      if a = 0 then .nan else if 0 < a then .posInf else .negInf
    else .finite (a / b)
  | .finite _, .posInf => .finite 0
  | .finite _, .negInf => .finite 0
  | .posInf, .finite b => if 0 ≤ b then .posInf else .negInf
  | .negInf, .finite b => if 0 ≤ b then .negInf else .posInf
  | .posInf, _ => .nan
  | .negInf, _ => .nan

/-- Whether a `JSNum` is an ordinary finite number. -/
def JSNum.isFinite : JSNum → Bool
  | .finite _ => true
  | _ => false

/-- `Expense` with its monetary fields kept as raw JS numbers, for the
claims about `NaN`/`Infinity` propagation.  Fields the recalculation path
of `updateExpense` never touches numerically keep their `ℚ`-free shape. -/
structure ExpenseJS where
  id : String
  totalValue : JSNum
  installmentValue : JSNum
  installments : Option InstallmentsInfo
  originalId : Option String
deriving DecidableEq, Repr

/-- `Partial<Expense>` restricted to the fields the recalculation path of
`updateExpense` reads, with JS-number values. -/
structure ExpenseUpdatesJS where
  totalValue : Option JSNum
  installments : Option InstallmentsInfo
deriving DecidableEq, Repr

/-- The spread `{ ...e, ...updates }` on the `ExpenseJS` projection. -/
def applyUpdatesJS (e : ExpenseJS) (u : ExpenseUpdatesJS) : ExpenseJS :=
  { e with
    totalValue := u.totalValue.getD e.totalValue
    installments := orOpt u.installments e.installments }

/-- `updateExpense` (`useFinance.ts:210-248`) over the JS-number projection:
the same branches as `updateExpense`, with the division
`totalValue / totalInstallments` performed by `jsDiv`, so that a zero
installment count produces the actual `Infinity`/`NaN` the JS code stores. -/
def updateExpenseJS (expenses : List ExpenseJS) (id : String)
    (u : ExpenseUpdatesJS) : List ExpenseJS :=
  match expenses.find? (fun e => e.id == id) with
  | none => expenses
  | some expense =>
    if expense.originalId.isSome ∧ (u.totalValue.isSome ∨ u.installments.isSome) then
      let totalValue := u.totalValue.getD expense.totalValue
      let totalInstallments : Nat :=
        (u.installments.map (fun i => i.total)).getD
          ((expense.installments.map (fun i => i.total)).getD 1)
      let installmentValue := jsDiv totalValue (.finite (totalInstallments : ℚ))
      expenses.map (fun e =>
        match e.installments with
        | some ei =>
          if e.originalId = expense.originalId ∧
             orNatJS (expense.installments.map (fun i => i.current)) 1 ≤ ei.current then
            { applyUpdatesJS e u with
              totalValue := totalValue
              installmentValue := installmentValue
              installments := some { ei with total := totalInstallments } }
          else if e.id = id then applyUpdatesJS e u else e
        | none => if e.id = id then applyUpdatesJS e u else e)
    else
      expenses.map (fun e => if e.id = id then applyUpdatesJS e u else e)

/-- Concrete month used by the witness instances. -/
def sampleMonth : MonthYear := ⟨2024, 7⟩

/-- Parcel `i` of a concrete 3-parcel series of value 100 each. -/
def sampleParcel (i : Nat) : Expense :=
  { id := "p" ++ toString i
    title := "tv"
    categoryId := "cat-1"
    type := .installment
    purchaseDate := "2024-01-05"
    billingMonth := MonthYear.addMonths ⟨2024, 1⟩ (i - 1)
    isInstallment := true
    totalValue := 300
    installmentValue := 100
    installments := some ⟨i, 3⟩
    paymentMethod := "cash"
    isPaid := false
    originalId := some "orig-1"
    valueHistory := none }

/-- A concrete 3-parcel installment series. -/
def sampleSeries : List Expense := [sampleParcel 1, sampleParcel 2, sampleParcel 3]

/-- The concrete edit of the spec's scoped re-projection example:
`totalValue := 180`, `installments.total := 2`. -/
def sampleSeriesUpdate : ExpenseUpdates :=
  ⟨none, none, none, none, none, some 180, none, some ⟨2, 2⟩, none, none, none⟩

/-- The fixed-income history of the spec's latest-at-or-before example. -/
def sampleHistory : List ValueHistoryItem :=
  [⟨⟨2024, 1⟩, 1000, none⟩, ⟨⟨2024, 6⟩, 1200, some "card-1"⟩]

/-- A concrete fixed income carrying `sampleHistory`. -/
def sampleFixedIncome : Income :=
  ⟨"i1", "salary", "inc-1", .fixed, none, some sampleHistory, none, none, none⟩

/-- A concrete fixed expense carrying `sampleHistory`. -/
def sampleFixedExpense : Expense :=
  { id := "e1"
    title := "rent"
    categoryId := "exp-3"
    type := .fixed
    purchaseDate := "2024-01-01"
    billingMonth := ⟨2024, 1⟩
    isInstallment := false
    totalValue := 1000
    installmentValue := 1000
    installments := none
    paymentMethod := "cash"
    isPaid := false
    originalId := none
    valueHistory := some sampleHistory }

/-- The temporary income of the spec's window example:
start `2024-03`, 3 months, amount 100. -/
def sampleTempIncome : Income :=
  ⟨"i2", "bonus", "inc-2", .temporary, none, none, some 100, some ⟨2024, 3⟩, some 3⟩

/-- A concrete one-time expense billed in `sampleMonth`, with a category id
and payment method that match nothing. -/
def sampleDanglingExpense : Expense :=
  { id := "e2"
    title := "misc"
    categoryId := "ghost-category"
    type := .one_time
    purchaseDate := "2024-07-01"
    billingMonth := sampleMonth
    isInstallment := false
    totalValue := 50
    installmentValue := 50
    installments := none
    paymentMethod := "ghost-card"
    isPaid := false
    originalId := none
    valueHistory := none }

/-- Parcel `i` of a concrete 2-parcel series in the JS-number model. -/
def sampleParcelJS (i : Nat) : ExpenseJS :=
  ⟨"p" ++ toString i, .finite 300, .finite 150, some ⟨i, 2⟩, some "orig-1"⟩

/-- A concrete edit whose `installments.total` is `0`. -/
def sampleZeroUpdate : ExpenseUpdatesJS := ⟨none, some ⟨1, 0⟩⟩

/-! ## Order and sorting helpers -/

theorem MonthYear.le_def (a b : MonthYear) : a ≤ b ↔ a.key ≤ b.key := Iff.rfl

theorem MonthYear.le_total_months (a b : MonthYear) : a ≤ b ∨ b ≤ a :=
  Nat.le_total a.key b.key

theorem MonthYear.le_trans_months {a b c : MonthYear} (h1 : a ≤ b) (h2 : b ≤ c) :
    a ≤ c := Nat.le_trans h1 h2

theorem MonthYear.addMonths_toIndex (m : MonthYear) (i : Nat) :
    (m.addMonths i).toIndex = m.toIndex + i ∧ (m.addMonths i).Valid := by
  have hv : (1 ≤ (m.addMonths i).month ∧ (m.addMonths i).month ≤ 12) ∧
      (m.addMonths i).toIndex = m.toIndex + i := by
    simp only [MonthYear.addMonths, MonthYear.toIndex]
    omega
  exact ⟨hv.2, hv.1⟩

theorem MonthYear.le_iff_toIndex {a b : MonthYear} (ha : a.Valid) (hb : b.Valid) :
    a ≤ b ↔ a.toIndex ≤ b.toIndex := by
  have ha' : 1 ≤ a.month ∧ a.month ≤ 12 := ha
  have hb' : 1 ≤ b.month ∧ b.month ≤ 12 := hb
  simp only [MonthYear.le_def, MonthYear.key, MonthYear.toIndex]
  omega

theorem foldl_add_map {α : Type} (f : α → ℚ) (l : List α) (a : ℚ) :
    l.foldl (fun acc x => acc + f x) a = a + (l.map f).sum := by
  induction l generalizing a with
  | nil => simp
  | cons x xs ih => simp [ih, add_assoc]

/-- The head of a list merge-sorted by descending `monthYear` is a maximal
element, first among ties. -/
theorem head_mergeSort_max {α : Type} (key : α → MonthYear) (l : List α) (x : α)
    (hx : (l.mergeSort (fun a b => decide (key b ≤ key a))).head? = some x) :
    x ∈ l ∧ ∀ y ∈ l, key y ≤ key x := by
  have trans : ∀ (a b c : α), decide (key b ≤ key a) = true →
      decide (key c ≤ key b) = true → decide (key c ≤ key a) = true := by
    intro a b c h1 h2
    simp only [decide_eq_true_eq] at h1 h2 ⊢
    exact MonthYear.le_trans_months h2 h1
  have total : ∀ (a b : α),
      (decide (key b ≤ key a) || decide (key a ≤ key b)) = true := by
    intro a b
    rcases MonthYear.le_total_months (key b) (key a) with h | h <;> simp [h]
  have hp : (l.mergeSort (fun a b => decide (key b ≤ key a))).Pairwise
      (fun a b => decide (key b ≤ key a)) :=
    List.sorted_mergeSort trans total l
  rcases hhead : l.mergeSort (fun a b => decide (key b ≤ key a)) with _ | ⟨s, t⟩
  · rw [hhead] at hx; simp at hx
  · rw [hhead] at hx hp
    simp only [List.head?_cons, Option.some.injEq] at hx
    subst hx
    have hmem : s ∈ l := by
      have hms : s ∈ l.mergeSort (fun a b => decide (key b ≤ key a)) := by
        rw [hhead]; exact List.mem_cons_self _ _
      exact List.mem_mergeSort.mp hms
    refine ⟨hmem, ?_⟩
    intro y hy
    have hy' : y ∈ l.mergeSort (fun a b => decide (key b ≤ key a)) :=
      List.mem_mergeSort.mpr hy
    rw [hhead] at hy'
    rcases List.mem_cons.mp hy' with rfl | hyt
    · exact Nat.le_refl _
    · have hpair := (List.pairwise_cons.mp hp).1 y hyt
      simpa using hpair

theorem latestAtOrBefore_spec_some {h : List ValueHistoryItem} {m : MonthYear}
    {x : ValueHistoryItem} (hx : latestAtOrBefore h m = some x) :
    x ∈ h ∧ x.monthYear ≤ m ∧
      ∀ y ∈ h, y.monthYear ≤ m → y.monthYear ≤ x.monthYear := by
  unfold latestAtOrBefore at hx
  have hmax := head_mergeSort_max ValueHistoryItem.monthYear
    (h.filter (fun v => decide (v.monthYear ≤ m))) x hx
  obtain ⟨hmem, hbound⟩ := hmax
  have hmem' := List.mem_filter.mp hmem
  refine ⟨hmem'.1, by simpa using hmem'.2, ?_⟩
  intro y hy hle
  exact hbound y (List.mem_filter.mpr ⟨hy, by simpa using hle⟩)

theorem latestAtOrBefore_spec_none {h : List ValueHistoryItem} {m : MonthYear}
    (hn : latestAtOrBefore h m = none) :
    ∀ y ∈ h, ¬ y.monthYear ≤ m := by
  unfold latestAtOrBefore at hn
  intro y hy hle
  have hmem : y ∈ (h.filter (fun v => decide (v.monthYear ≤ m))).mergeSort
      (fun a b => decide (b.monthYear ≤ a.monthYear)) :=
    List.mem_mergeSort.mpr (List.mem_filter.mpr ⟨hy, by simpa using hle⟩)
  rcases hnil : (h.filter (fun v => decide (v.monthYear ≤ m))).mergeSort
      (fun a b => decide (b.monthYear ≤ a.monthYear)) with _ | ⟨s, t⟩
  · rw [hnil] at hmem; simp at hmem
  · rw [hnil] at hn; simp at hn

/-! ## Claims -/

/-- C10: updating an id that matches no expense is a silent no-op — the
expense array is returned completely unchanged. -/
theorem c10_update_unknown_id_noop (l : List Expense) (id : String)
    (u : ExpenseUpdates) (h : ∀ e ∈ l, e.id ≠ id) :
    updateExpense l id u = l := by
  unfold updateExpense
  have hfind : l.find? (fun e => e.id == id) = none := by
    apply List.find?_eq_none.mpr
    intro e he
    simpa using h e he
  rw [hfind]

/-- Witness for C10 at a concrete series and an absent id. -/
theorem c10_update_unknown_id_noop_witness :
    (∀ e ∈ sampleSeries, e.id ≠ "zzz") ∧
      updateExpense sampleSeries "zzz" sampleSeriesUpdate = sampleSeries :=
  ⟨by decide, c10_update_unknown_id_noop sampleSeries "zzz" sampleSeriesUpdate
    (by decide)⟩

/-- C8: a temporary income with a start month and a positive duration
resolves to its amount exactly on the inclusive window of `durationMonths`
consecutive months starting at `startMonth`, and to `0` outside it. -/
theorem c8_temporary_income_window (income : Income) (start : MonthYear)
    (d : Nat) (a : ℚ) (m : MonthYear)
    (hty : income.type = .temporary)
    (hstart : income.startMonth = some start)
    (hdur : income.durationMonths = some d)
    (hamt : income.amount = some a)
    (hd : 1 ≤ d) (hs : start.Valid) (hm : m.Valid) :
    getIncomeValueForMonth income m =
      (if start ≤ m ∧ m ≤ start.addMonths (d - 1) then a else 0) ∧
    ((start ≤ m ∧ m ≤ start.addMonths (d - 1)) ↔
      (start.toIndex ≤ m.toIndex ∧ m.toIndex ≤ start.toIndex + (d - 1))) := by
  obtain ⟨hidx, hval⟩ := MonthYear.addMonths_toIndex start (d - 1)
  constructor
  · unfold getIncomeValueForMonth
    rw [hty, hstart, hdur, hamt]
    have hd0 : ¬ d = 0 := by omega
    dsimp only
    rw [if_neg hd0]
    simp
  · constructor
    · rintro ⟨h1, h2⟩
      exact ⟨(MonthYear.le_iff_toIndex hs hm).mp h1, by
        have := (MonthYear.le_iff_toIndex hm hval).mp h2
        omega⟩
    · rintro ⟨h1, h2⟩
      exact ⟨(MonthYear.le_iff_toIndex hs hm).mpr h1,
        (MonthYear.le_iff_toIndex hm hval).mpr (by omega)⟩

/-- Witness for C8 at the spec's example: start `2024-03`, 3 months,
amount 100; month `2024-04` resolves to 100 and `2024-06` to 0. -/
theorem c8_temporary_income_window_witness :
    (sampleTempIncome.type = .temporary ∧
     sampleTempIncome.startMonth = some ⟨2024, 3⟩ ∧
     sampleTempIncome.durationMonths = some 3 ∧
     sampleTempIncome.amount = some 100) ∧
    getIncomeValueForMonth sampleTempIncome ⟨2024, 4⟩ = 100 ∧
    getIncomeValueForMonth sampleTempIncome ⟨2024, 6⟩ = 0 := by
  refine ⟨⟨rfl, rfl, rfl, rfl⟩, ?_, ?_⟩
  · have h := c8_temporary_income_window sampleTempIncome ⟨2024, 3⟩ 3 100
      ⟨2024, 4⟩ rfl rfl rfl rfl (by decide) (by decide) (by decide)
    rw [h.1]
    decide
  · have h := c8_temporary_income_window sampleTempIncome ⟨2024, 3⟩ 3 100
      ⟨2024, 6⟩ rfl rfl rfl rfl (by decide) (by decide) (by decide)
    rw [h.1]
    decide

/-- C1: for fixed incomes and expenses the resolver returns the value of
the history entry with the greatest `monthYear` at or before the target;
if the target predates all history it returns the earliest entry's value
(not zero); an empty or absent history resolves to 0; expense results pair
the value with the entry's payment method, defaulting to the expense's
own. -/
theorem c1_fixed_resolution (inc : Income) (ex : Expense) (m : MonthYear)
    (x0 : ValueHistoryItem) (t : List ValueHistoryItem)
    (hti : inc.type = .fixed) (hte : ex.type = .fixed) :
    ((inc.valueHistory = none ∨ inc.valueHistory = some []) →
      getIncomeValueForMonth inc m = 0) ∧
    ((ex.valueHistory = none ∨ ex.valueHistory = some []) →
      getExpenseValueForMonth ex m = ⟨0, ex.paymentMethod⟩) ∧
    (inc.valueHistory = some (x0 :: t) →
      ((∃ y ∈ x0 :: t, y.monthYear ≤ m) →
        ∃ x ∈ x0 :: t, x.monthYear ≤ m ∧
          (∀ y ∈ x0 :: t, y.monthYear ≤ m → y.monthYear ≤ x.monthYear) ∧
          getIncomeValueForMonth inc m = x.value) ∧
      ((∀ y ∈ x0 :: t, ¬ y.monthYear ≤ m) →
        (x0 :: t).Pairwise (fun a b => a.monthYear ≤ b.monthYear) →
        getIncomeValueForMonth inc m = x0.value ∧
          ∀ y ∈ x0 :: t, x0.monthYear ≤ y.monthYear)) ∧
    (ex.valueHistory = some (x0 :: t) →
      ((∃ y ∈ x0 :: t, y.monthYear ≤ m) →
        ∃ x ∈ x0 :: t, x.monthYear ≤ m ∧
          (∀ y ∈ x0 :: t, y.monthYear ≤ m → y.monthYear ≤ x.monthYear) ∧
          getExpenseValueForMonth ex m =
            ⟨x.value, x.paymentMethod.getD ex.paymentMethod⟩) ∧
      ((∀ y ∈ x0 :: t, ¬ y.monthYear ≤ m) →
        (x0 :: t).Pairwise (fun a b => a.monthYear ≤ b.monthYear) →
        getExpenseValueForMonth ex m =
            ⟨x0.value, x0.paymentMethod.getD ex.paymentMethod⟩ ∧
          ∀ y ∈ x0 :: t, x0.monthYear ≤ y.monthYear)) := by
  refine ⟨?_, ?_, ?_, ?_⟩
  · rintro (hv | hv) <;>
      (unfold getIncomeValueForMonth; rw [hti, hv])
  · rintro (hv | hv) <;>
      (unfold getExpenseValueForMonth; rw [hte, hv])
  · intro hv
    constructor
    · rintro ⟨y, hy, hym⟩
      rcases hL : latestAtOrBefore (x0 :: t) m with _ | x
      · exact absurd hym (latestAtOrBefore_spec_none hL y hy)
      · obtain ⟨hmem, hxle, hmax⟩ := latestAtOrBefore_spec_some hL
        refine ⟨x, hmem, hxle, hmax, ?_⟩
        unfold getIncomeValueForMonth
        rw [hti, hv]
        dsimp only
        rw [hL]
    · intro hnone hsorted
      rcases hL : latestAtOrBefore (x0 :: t) m with _ | x
      · constructor
        · unfold getIncomeValueForMonth
          rw [hti, hv]
          dsimp only
          rw [hL]
        · intro y hy
          rcases List.mem_cons.mp hy with rfl | hyt
          · exact Nat.le_refl _
          · exact (List.pairwise_cons.mp hsorted).1 y hyt
      · obtain ⟨hmem, hxle, _⟩ := latestAtOrBefore_spec_some hL
        exact absurd hxle (hnone x hmem)
  · intro hv
    constructor
    · rintro ⟨y, hy, hym⟩
      rcases hL : latestAtOrBefore (x0 :: t) m with _ | x
      · exact absurd hym (latestAtOrBefore_spec_none hL y hy)
      · obtain ⟨hmem, hxle, hmax⟩ := latestAtOrBefore_spec_some hL
        refine ⟨x, hmem, hxle, hmax, ?_⟩
        unfold getExpenseValueForMonth
        rw [hte, hv]
        dsimp only
        rw [hL]
    · intro hnone hsorted
      rcases hL : latestAtOrBefore (x0 :: t) m with _ | x
      · constructor
        · unfold getExpenseValueForMonth
          rw [hte, hv]
          dsimp only
          rw [hL]
        · intro y hy
          rcases List.mem_cons.mp hy with rfl | hyt
          · exact Nat.le_refl _
          · exact (List.pairwise_cons.mp hsorted).1 y hyt
      · obtain ⟨hmem, hxle, _⟩ := latestAtOrBefore_spec_some hL
        exact absurd hxle (hnone x hmem)

/-- Witness for C1 at the spec's example history
`[{2024-01, 1000}, {2024-06, 1200}]` and target `2024-08`. -/
theorem c1_fixed_resolution_witness :
    (sampleFixedIncome.type = .fixed ∧ sampleFixedExpense.type = .fixed ∧
     sampleFixedIncome.valueHistory = some sampleHistory ∧
     (∃ y ∈ sampleHistory, y.monthYear ≤ (⟨2024, 8⟩ : MonthYear))) ∧
    (∃ x ∈ sampleHistory, x.monthYear ≤ (⟨2024, 8⟩ : MonthYear) ∧
      (∀ y ∈ sampleHistory, y.monthYear ≤ ⟨2024, 8⟩ → y.monthYear ≤ x.monthYear) ∧
      getIncomeValueForMonth sampleFixedIncome ⟨2024, 8⟩ = x.value) := by
  have h := c1_fixed_resolution sampleFixedIncome sampleFixedExpense ⟨2024, 8⟩
    ⟨⟨2024, 1⟩, 1000, none⟩ [⟨⟨2024, 6⟩, 1200, some "card-1"⟩] rfl rfl
  exact ⟨⟨rfl, rfl, rfl, by decide⟩, (h.2.2.1 rfl).1 (by decide)⟩

set_option maxHeartbeats 1000000 in
/-- The year-rollover example rendered back to its `YYYY-MM` string. -/
theorem render_rollover_dec_2024 :
    MonthYear.render (MonthYear.addMonths ⟨2024, 12⟩ 1) = "2025-01" := by
  decide

/-- C4: expanding an installment purchase yields exactly `n` records;
record `i` (0-based) is billed `i` calendar months after the start (month
arithmetic carries across year boundaries), carries
`installments = {current := i + 1, total := n}`, shares the one
`originalId`, and copies value, category, payment method and title from
the base. -/
theorem c4_installment_expansion (base : ExpenseBase) (start : MonthYear)
    (n : Nat) (originalId : String) (freshId : Nat → String) (_hn : 1 ≤ n) :
    (addInstallmentExpense base start n originalId freshId).length = n ∧
    (∀ i, i < n →
      ∃ r, (addInstallmentExpense base start n originalId freshId)[i]? = some r ∧
        r.billingMonth = start.addMonths i ∧
        r.billingMonth.toIndex = start.toIndex + i ∧ r.billingMonth.Valid ∧
        r.installments = some ⟨i + 1, n⟩ ∧
        r.originalId = some originalId ∧
        r.totalValue = base.totalValue ∧
        r.installmentValue = base.installmentValue ∧
        r.categoryId = base.categoryId ∧
        r.paymentMethod = base.paymentMethod ∧
        r.title = base.title) ∧
    MonthYear.addMonths ⟨2024, 12⟩ 1 = ⟨2025, 1⟩ ∧
    MonthYear.render (MonthYear.addMonths ⟨2024, 12⟩ 1) = "2025-01" := by
  refine ⟨?_, ?_, by decide, render_rollover_dec_2024⟩
  · unfold addInstallmentExpense
    simp
  · intro i hi
    obtain ⟨hidx, hval⟩ := MonthYear.addMonths_toIndex start i
    have hget : (addInstallmentExpense base start n originalId freshId)[i]? =
        some { id := freshId i, title := base.title, categoryId := base.categoryId
               type := .installment, purchaseDate := base.purchaseDate
               billingMonth := start.addMonths i
               isInstallment := base.isInstallment
               totalValue := base.totalValue
               installmentValue := base.installmentValue
               installments := some ⟨i + 1, n⟩
               paymentMethod := base.paymentMethod
               isPaid := base.isPaid, originalId := some originalId
               valueHistory := base.valueHistory } := by
      unfold addInstallmentExpense
      simp [List.getElem?_map, List.getElem?_range, hi]
    exact ⟨_, hget, rfl, hidx, hval, rfl, rfl, rfl, rfl, rfl, rfl, rfl⟩

/-- Witness for C4 at a concrete year-rollover expansion. -/
theorem c4_installment_expansion_witness :
    1 ≤ 2 ∧
      (addInstallmentExpense
        ⟨"tv", "cat-1", "2024-01-05", true, 300, 150, "cash", false, none⟩
        ⟨2024, 12⟩ 2 "orig-1" (fun j => MonthYear.pad2 j)).length = 2 :=
  ⟨by decide,
    (c4_installment_expansion
      ⟨"tv", "cat-1", "2024-01-05", true, 300, 150, "cash", false, none⟩
      ⟨2024, 12⟩ 2 "orig-1" (fun j => MonthYear.pad2 j) (by decide)).1⟩

/-- C3: the scope-aware expense update invoked with scope `only` replaces
exactly the records carrying the target id (with the found record merged
with the updates) and leaves every other record — in particular every
installment sibling — unchanged, whatever the updates contain. -/
theorem c3_scope_only_frame (l : List Expense) (id : String)
    (u : ExpenseUpdates) (e0 : Expense)
    (hfind : l.find? (fun e => e.id == id) = some e0) :
    updateExpenseScoped l id u .only =
      l.map (fun e => if e.id = id then applyUpdates e0 u else e) ∧
    ∀ e ∈ l, e.id ≠ id → e ∈ updateExpenseScoped l id u .only := by
  have heq : updateExpenseScoped l id u .only =
      l.map (fun e => if e.id = id then applyUpdates e0 u else e) := by
    unfold updateExpenseScoped
    rw [hfind]
    dsimp only
    rw [if_pos (Or.inr rfl)]
  refine ⟨heq, ?_⟩
  intro e he hne
  rw [heq]
  exact List.mem_map.mpr ⟨e, he, if_neg hne⟩

/-- Witness for C3 at the concrete 3-parcel series, editing parcel 2 with
value-changing updates under scope `only`. -/
theorem c3_scope_only_frame_witness :
    (sampleSeries.find? (fun e => e.id == "p2") = some (sampleParcel 2)) ∧
    updateExpenseScoped sampleSeries "p2" sampleSeriesUpdate .only =
      sampleSeries.map (fun e =>
        if e.id = "p2" then applyUpdates (sampleParcel 2) sampleSeriesUpdate
        else e) :=
  ⟨by decide,
    (c3_scope_only_frame sampleSeries "p2" sampleSeriesUpdate (sampleParcel 2)
      (by decide)).1⟩

/-- C2: editing the installment-series member at parcel `c` with updates
that change `totalValue` or `installments.total` re-projects the target
and every series member at parcel `>= c` to the evenly re-divided
`installmentValue = totalValue / installments.total` with the new
`installments.total` applied uniformly, while every record at a parcel
`< c` (other than the target) is left untouched. -/
theorem c2_future_reprojection (l : List Expense) (id : String)
    (u : ExpenseUpdates) (e0 : Expense) (oid : String) (c t0 : Nat)
    (hfind : l.find? (fun e => e.id == id) = some e0)
    (horig : e0.originalId = some oid)
    (hcur : e0.installments = some ⟨c, t0⟩)
    (hc : 1 ≤ c)
    (hchange : u.totalValue.isSome ∨ u.installments.isSome) :
    (updateExpense l id u).length = l.length ∧
    ∀ i, ∀ hi : i < l.length,
      (∀ cur tot, (l.get ⟨i, hi⟩).originalId = some oid →
        (l.get ⟨i, hi⟩).installments = some ⟨cur, tot⟩ → c ≤ cur →
        ∃ r, (updateExpense l id u)[i]? = some r ∧
          r.totalValue = u.totalValue.getD e0.totalValue ∧
          r.installmentValue = (u.totalValue.getD e0.totalValue) /
            ((((u.installments.map (fun x => x.total)).getD t0 : Nat)) : ℚ) ∧
          r.installments =
            some ⟨cur, (u.installments.map (fun x => x.total)).getD t0⟩) ∧
      (∀ cur tot, (l.get ⟨i, hi⟩).installments = some ⟨cur, tot⟩ → cur < c →
        (l.get ⟨i, hi⟩).id ≠ id →
        (updateExpense l id u)[i]? = some (l.get ⟨i, hi⟩)) := by
  have hcond : e0.originalId.isSome ∧
      (u.totalValue.isSome ∨ u.installments.isSome) := by
    rw [horig]
    exact ⟨rfl, hchange⟩
  have hfloor : orNatJS (e0.installments.map (fun x => x.current)) 1 = c := by
    rw [hcur]
    unfold orNatJS
    simp only [Option.map_some']
    rw [if_neg (by omega)]
  have htot : (e0.installments.map (fun x => x.total)).getD 1 = t0 := by
    rw [hcur]
    rfl
  have hmain : updateExpense l id u = l.map (fun e =>
      match e.installments with
      | some ei =>
        if e.originalId = e0.originalId ∧
           orNatJS (e0.installments.map (fun x => x.current)) 1 ≤ ei.current then
          { applyUpdates e u with
            totalValue := u.totalValue.getD e0.totalValue
            installmentValue := (u.totalValue.getD e0.totalValue) /
              ((((u.installments.map (fun x => x.total)).getD
                ((e0.installments.map (fun x => x.total)).getD 1) : Nat)) : ℚ)
            installments := some { ei with
              total := (u.installments.map (fun x => x.total)).getD
                ((e0.installments.map (fun x => x.total)).getD 1) } }
        else if e.id = id then applyUpdates e u else e
      | none => if e.id = id then applyUpdates e u else e) := by
    unfold updateExpense
    rw [hfind]
    dsimp only
    rw [if_pos hcond]
  constructor
  · rw [hmain]
    simp
  · intro i hi
    have hgi : l[i]? = some (l.get ⟨i, hi⟩) := List.getElem?_eq_getElem hi
    constructor
    · intro cur tot heo hins hcle
      rw [hmain, List.getElem?_map, hgi, Option.map_some']
      refine ⟨_, rfl, ?_⟩
      rw [hins]
      dsimp only
      rw [if_pos ⟨by rw [heo, horig], by rw [hfloor]; exact hcle⟩, htot]
      exact ⟨rfl, rfl, rfl⟩
    · intro cur tot hins hlt hne
      rw [hmain, List.getElem?_map, hgi, Option.map_some']
      rw [hins]
      dsimp only
      rw [if_neg (by
        rintro ⟨-, hle⟩
        rw [hfloor] at hle
        omega)]
      rw [if_neg hne]

/-- Witness for C2 at the spec's example: parcel 2 of a 3-parcel series of
value 100 each, edited with `totalValue := 180`, `total := 2`. -/
theorem c2_future_reprojection_witness :
    (sampleSeries.find? (fun e => e.id == "p2") = some (sampleParcel 2) ∧
     (sampleParcel 2).originalId = some "orig-1" ∧
     (sampleParcel 2).installments = some ⟨2, 3⟩ ∧
     sampleSeriesUpdate.totalValue.isSome = true) ∧
    (updateExpense sampleSeries "p2" sampleSeriesUpdate).length =
      sampleSeries.length := by
  refine ⟨⟨by decide, rfl, rfl, rfl⟩, ?_⟩
  exact (c2_future_reprojection sampleSeries "p2" sampleSeriesUpdate
    (sampleParcel 2) "orig-1" 2 3 (by decide) rfl rfl (by decide)
    (Or.inl rfl)).1

/-- The values of the kept monthly expenses are exactly the positive
resolved values, in order. -/
theorem monthlyExpensesFor_map_value (es : List Expense) (m : MonthYear) :
    (monthlyExpensesFor es m).map (fun p => p.2.value) =
      (es.map (fun e => (getExpenseValueForMonth e m).value)).filter
        (fun v => 0 < v) := by
  unfold monthlyExpensesFor
  induction es with
  | nil => rfl
  | cons e es ih =>
    simp only [List.map_cons, List.filter_cons]
    by_cases h : 0 < (getExpenseValueForMonth e m).value
    · simp [h, ih]
    · simp [h, ih]

/-- C6: the monthly aggregation sums resolved income values over all
incomes, sums resolved expense values over the expenses resolving to a
strictly positive value, and takes the balance as their unclamped
difference, which can be negative. -/
theorem c6_month_aggregation (incomes : List Income) (expenses : List Expense)
    (m : MonthYear) :
    totalIncomeFor incomes m =
      (incomes.map (fun i => getIncomeValueForMonth i m)).sum ∧
    totalExpensesFor expenses m =
      ((expenses.map (fun e => (getExpenseValueForMonth e m).value)).filter
        (fun v => 0 < v)).sum ∧
    balanceFor incomes expenses m =
      totalIncomeFor incomes m - totalExpensesFor expenses m ∧
    balanceFor [] [sampleDanglingExpense] sampleMonth < 0 := by
  refine ⟨?_, ?_, rfl, ?_⟩
  · unfold totalIncomeFor
    rw [foldl_add_map]
    simp
  · unfold totalExpensesFor
    rw [foldl_add_map (fun p => p.2.value) (monthlyExpensesFor expenses m) 0]
    rw [monthlyExpensesFor_map_value]
    simp
  · unfold balanceFor totalIncomeFor totalExpensesFor monthlyExpensesFor
    norm_num [getExpenseValueForMonth, sampleDanglingExpense, sampleMonth]

/-- Bumping one bucket changes exactly that bucket's looked-up total. -/
theorem lookupBucket_addToBucket (data : List (String × ℚ)) (n : String)
    (v : ℚ) (nm : String) :
    lookupBucket (addToBucket data n v) nm =
      if n = nm then lookupBucket data nm + v else lookupBucket data nm := by
  unfold addToBucket lookupBucket
  by_cases hmem : data.any (fun p => p.1 == n) = true
  · rw [if_pos hmem, List.find?_map]
    have hpred : ((fun p : String × ℚ => p.1 == nm) ∘
        (fun p : String × ℚ => if p.1 == n then (p.1, p.2 + v) else p)) =
        (fun p : String × ℚ => p.1 == nm) := by
      funext q
      by_cases h : q.1 == n <;> simp [Function.comp, h]
    rw [hpred]
    cases hfind : data.find? (fun p => p.1 == nm) with
    | none =>
      have hne : n ≠ nm := by
        rintro rfl
        obtain ⟨q, hq, hqn⟩ := List.any_eq_true.mp hmem
        exact absurd hqn (List.find?_eq_none.mp hfind q hq)
      rw [if_neg hne]
      simp
    | some q =>
      have hq : q.1 = nm := by simpa using List.find?_some hfind
      by_cases h : n = nm
      · subst h
        have hqn : (q.1 == n) = true := by simp [hq]
        simp [hqn, hq]
      · have hqn : (q.1 == n) = false := by simp [hq]; exact fun he => h he.symm
        simp only [hqn, h, if_false, Option.map_some', Option.getD_some]
        simp
  · rw [if_neg hmem, List.find?_append]
    cases hfind : data.find? (fun p => p.1 == nm) with
    | some q =>
      have hq : q.1 = nm := by simpa using List.find?_some hfind
      have hqmem := List.mem_of_find?_eq_some hfind
      have hne : n ≠ nm := by
        rintro rfl
        exact hmem (List.any_eq_true.mpr ⟨q, hqmem, by simp [hq]⟩)
      simp [hne]
    | none =>
      by_cases h : n = nm <;> simp [List.find?_cons, h]

/-- Folding conditional bucket additions accumulates, per bucket, the sum
of the contributed values over the matching, condition-passing items. -/
theorem lookupBucket_groupFold {α : Type} (key : α → String) (val : α → ℚ)
    (cond : α → Prop) [DecidablePred cond] (es : List α)
    (data : List (String × ℚ)) (nm : String) :
    lookupBucket (es.foldl (fun d e =>
        if cond e then addToBucket d (key e) (val e) else d) data) nm =
      lookupBucket data nm +
        ((es.filter (fun e => decide (cond e) && (key e == nm))).map val).sum := by
  induction es generalizing data with
  | nil => simp
  | cons e es ih =>
    rw [List.foldl_cons, ih, List.filter_cons]
    by_cases hc : cond e
    · rw [if_pos hc, lookupBucket_addToBucket]
      by_cases hk : key e = nm
      · simp [hc, hk, add_assoc]
      · simp [hc, hk]
    · rw [if_neg hc]
      simp [hc]

/-- C9: per-category aggregation sends a dangling `categoryId` to the
default `Outros` bucket whose total is the sum of the positive resolved
values bucketed there, per-card aggregation sends a payment method that is
neither `cash` nor an existing card id to the `Dinheiro` bucket likewise,
and the final descending sort only reorders the card buckets. -/
theorem c9_dangling_reference_buckets (es : List Expense)
    (cats : List Category) (cards : List CreditCard) (m : MonthYear) :
    (∀ e : Expense, (∀ c ∈ cats, c.id ≠ e.categoryId) →
      catNameOf cats e = "Outros") ∧
    lookupBucket (categoryData es cats m) "Outros" =
      ((es.filter (fun e => decide (0 < (getExpenseValueForMonth e m).value) &&
        (catNameOf cats e == "Outros"))).map
          (fun e => (getExpenseValueForMonth e m).value)).sum ∧
    (∀ pm : String, pm ≠ "cash" → (∀ c ∈ cards, c.id ≠ pm) →
      cardBucketOf cards pm = "Dinheiro") ∧
    lookupBucket (cardUsageAcc es cards m) "Dinheiro" =
      ((es.filter (fun e => decide (0 < (getExpenseValueForMonth e m).value) &&
        (cardBucketOf cards (getExpenseValueForMonth e m).paymentMethod ==
          "Dinheiro"))).map
            (fun e => (getExpenseValueForMonth e m).value)).sum ∧
    (∀ p, p ∈ cardUsageData es cards m ↔ p ∈ cardUsageAcc es cards m) := by
  refine ⟨?_, ?_, ?_, ?_, ?_⟩
  · intro e he
    unfold catNameOf
    have hnone : cats.find? (fun c => c.id == e.categoryId) = none := by
      apply List.find?_eq_none.mpr
      intro c hc
      simpa using he c hc
    rw [hnone]
    rfl
  · unfold categoryData
    rw [lookupBucket_groupFold (catNameOf cats)
      (fun e => (getExpenseValueForMonth e m).value)
      (fun e => 0 < (getExpenseValueForMonth e m).value) es [] "Outros"]
    simp [lookupBucket]
  · intro pm hpm hcards
    unfold cardBucketOf
    rw [if_neg (by simpa using hpm)]
    have hnone : cards.find? (fun c => c.id == pm) = none := by
      apply List.find?_eq_none.mpr
      intro c hc
      simpa using hcards c hc
    rw [hnone]
  · unfold cardUsageAcc
    rw [lookupBucket_groupFold
      (fun e => cardBucketOf cards (getExpenseValueForMonth e m).paymentMethod)
      (fun e => (getExpenseValueForMonth e m).value)
      (fun e => 0 < (getExpenseValueForMonth e m).value) es [] "Dinheiro"]
    simp [lookupBucket]
  · intro p
    unfold cardUsageData
    exact List.mem_mergeSort

/-- Witness for C9: one expense with a dangling category id and a dangling
card id lands entirely in the `Outros` and `Dinheiro` buckets. -/
theorem c9_dangling_reference_buckets_witness :
    ((∀ c ∈ ([] : List Category), c.id ≠ sampleDanglingExpense.categoryId) ∧
     "ghost-card" ≠ "cash") ∧
    catNameOf [] sampleDanglingExpense = "Outros" ∧
    cardBucketOf [] "ghost-card" = "Dinheiro" := by
  have h := c9_dangling_reference_buckets [sampleDanglingExpense] [] []
    sampleMonth
  exact ⟨⟨by simp, by decide⟩,
    h.1 sampleDanglingExpense (by simp),
    h.2.2.1 "ghost-card" (by decide) (by simp)⟩

/-- Counterexample to C7: an installment-series edit whose
`installments.total` is `0` does store `installmentValue = Infinity` —
the engine neither rejects nor ignores the zero count. -/
theorem c7_zero_total_counterexample :
    ∃ r ∈ updateExpenseJS [sampleParcelJS 1, sampleParcelJS 2] "p1"
      sampleZeroUpdate, r.installmentValue = JSNum.posInf := by
  decide

/-- C7 amended: the engine does not guard `totalInstallments >= 1`.  An
installment-series edit whose effective `installments.total` is `0`
stores `installmentValue = Infinity` on the target and on every later
parcel whenever the effective `totalValue` is a positive finite number;
guarding is left entirely to the caller. -/
theorem c7_zero_total_stores_infinity (l : List ExpenseJS) (id : String)
    (u : ExpenseUpdatesJS) (e0 : ExpenseJS) (oid : String) (c t0 : Nat)
    (q : ℚ)
    (hfind : l.find? (fun e => e.id == id) = some e0)
    (horig : e0.originalId = some oid)
    (hcur : e0.installments = some ⟨c, t0⟩)
    (hc : 1 ≤ c)
    (hchange : u.totalValue.isSome ∨ u.installments.isSome)
    (hN : (u.installments.map (fun x => x.total)).getD t0 = 0)
    (hT : u.totalValue.getD e0.totalValue = .finite q) (hq : 0 < q) :
    ∀ i, ∀ hi : i < l.length, ∀ cur tot,
      (l.get ⟨i, hi⟩).originalId = some oid →
      (l.get ⟨i, hi⟩).installments = some ⟨cur, tot⟩ → c ≤ cur →
      ∃ r, (updateExpenseJS l id u)[i]? = some r ∧
        r.installmentValue = JSNum.posInf := by
  have hcond : e0.originalId.isSome ∧
      (u.totalValue.isSome ∨ u.installments.isSome) := by
    rw [horig]
    exact ⟨rfl, hchange⟩
  have hfloor : orNatJS (e0.installments.map (fun x => x.current)) 1 = c := by
    rw [hcur]
    unfold orNatJS
    simp only [Option.map_some']
    rw [if_neg (by omega)]
  have htot : (u.installments.map (fun x => x.total)).getD
      ((e0.installments.map (fun x => x.total)).getD 1) = 0 := by
    rw [hcur]
    simpa using hN
  have hdiv : jsDiv (u.totalValue.getD e0.totalValue)
      (.finite (((u.installments.map (fun x => x.total)).getD
        ((e0.installments.map (fun x => x.total)).getD 1) : Nat) : ℚ)) =
      JSNum.posInf := by
    rw [htot, hT]
    unfold jsDiv
    simp only [Nat.cast_zero]
    simp [hq]
    exact ne_of_gt hq
  have hmain : updateExpenseJS l id u = l.map (fun e =>
      match e.installments with
      | some ei =>
        if e.originalId = e0.originalId ∧
           orNatJS (e0.installments.map (fun x => x.current)) 1 ≤ ei.current then
          { applyUpdatesJS e u with
            totalValue := u.totalValue.getD e0.totalValue
            installmentValue := jsDiv (u.totalValue.getD e0.totalValue)
              (.finite (((u.installments.map (fun x => x.total)).getD
                ((e0.installments.map (fun x => x.total)).getD 1) : Nat) : ℚ))
            installments := some { ei with
              total := (u.installments.map (fun x => x.total)).getD
                ((e0.installments.map (fun x => x.total)).getD 1) } }
        else if e.id = id then applyUpdatesJS e u else e
      | none => if e.id = id then applyUpdatesJS e u else e) := by
    unfold updateExpenseJS
    rw [hfind]
    dsimp only
    rw [if_pos hcond]
  intro i hi cur tot heo hins hcle
  have hgi : l[i]? = some (l.get ⟨i, hi⟩) := List.getElem?_eq_getElem hi
  rw [hmain, List.getElem?_map, hgi, Option.map_some']
  refine ⟨_, rfl, ?_⟩
  rw [hins]
  dsimp only
  rw [if_pos ⟨by rw [heo, horig], by rw [hfloor]; exact hcle⟩]
  exact hdiv

/-- Witness for the amended C7 at the concrete 2-parcel series edited with
`installments.total := 0`. -/
theorem c7_zero_total_stores_infinity_witness :
    ([sampleParcelJS 1, sampleParcelJS 2].find? (fun e => e.id == "p1") =
        some (sampleParcelJS 1) ∧
      (sampleParcelJS 1).installments = some ⟨1, 2⟩ ∧
      (sampleZeroUpdate.installments.map (fun x => x.total)).getD 2 = 0) ∧
    (∃ r, (updateExpenseJS [sampleParcelJS 1, sampleParcelJS 2] "p1"
        sampleZeroUpdate)[0]? = some r ∧
      r.installmentValue = JSNum.posInf) := by
  refine ⟨⟨by decide, rfl, rfl⟩, ?_⟩
  exact c7_zero_total_stores_infinity [sampleParcelJS 1, sampleParcelJS 2]
    "p1" sampleZeroUpdate (sampleParcelJS 1) "orig-1" 1 2 300
    (by decide) rfl rfl (by decide) (Or.inr rfl) rfl rfl (by decide)
    0 (by decide) 1 2 rfl rfl (by decide)

/-- `replaceOrPush` on the empty accumulator just appends. -/
theorem replaceOrPush_nil (c : ValueHistoryItem) : replaceOrPush [] c = [c] :=
  rfl

/-- Recursive characterization of `replaceOrPush`. -/
theorem replaceOrPush_cons (a : ValueHistoryItem)
    (as : List ValueHistoryItem) (c : ValueHistoryItem) :
    replaceOrPush (a :: as) c =
      if a.monthYear = c.monthYear then c :: as
      else a :: replaceOrPush as c := by
  unfold replaceOrPush
  by_cases h : a.monthYear = c.monthYear
  · simp [List.findIdx?_cons, h]
  · have hb : (a.monthYear == c.monthYear) = false := by simpa using h
    simp only [List.findIdx?_cons, hb, Bool.false_eq_true, if_false, if_neg h]
    rw [List.findIdx?_succ]
    cases hidx : as.findIdx? (fun x => x.monthYear == c.monthYear) with
    | none => simp
    | some i => simp [List.set]

/-- The entry `replaceOrPush` leaves at a month: the new entry at its own
month, the old lookup elsewhere. -/
theorem find?_replaceOrPush (acc : List ValueHistoryItem)
    (c : ValueHistoryItem) (mo : MonthYear) :
    (replaceOrPush acc c).find? (fun x => x.monthYear == mo) =
      if c.monthYear = mo then some c
      else acc.find? (fun x => x.monthYear == mo) := by
  induction acc with
  | nil =>
    rw [replaceOrPush_nil]
    by_cases h : c.monthYear = mo <;> simp [List.find?_cons, h]
  | cons a as ih =>
    rw [replaceOrPush_cons]
    by_cases hac : a.monthYear = c.monthYear
    · rw [if_pos hac]
      by_cases h : c.monthYear = mo
      · simp [List.find?_cons, h]
      · have ha : (a.monthYear == mo) = false := by
          simp only [beq_eq_false_iff_ne, ne_eq]
          rw [hac]
          exact h
        simp [List.find?_cons, h, ha]
    · rw [if_neg hac]
      by_cases h : c.monthYear = mo
      · have ha : (a.monthYear == mo) = false := by
          simp only [beq_eq_false_iff_ne, ne_eq]
          exact fun he => hac (he.trans h.symm)
        simp [List.find?_cons, ha, ih, h]
      · by_cases ha : a.monthYear = mo
        · simp [List.find?_cons, ha, h]
        · simp [List.find?_cons, ha, ih, h]

/-- `replaceOrPush` keeps the month list when the month is present and
appends it when absent. -/
theorem months_replaceOrPush (acc : List ValueHistoryItem)
    (c : ValueHistoryItem) :
    (replaceOrPush acc c).map (fun x => x.monthYear) =
      if c.monthYear ∈ acc.map (fun x => x.monthYear)
      then acc.map (fun x => x.monthYear)
      else acc.map (fun x => x.monthYear) ++ [c.monthYear] := by
  induction acc with
  | nil => simp [replaceOrPush_nil]
  | cons a as ih =>
    rw [replaceOrPush_cons]
    by_cases hac : a.monthYear = c.monthYear
    · rw [if_pos hac]
      simp [hac]
    · rw [if_neg hac]
      by_cases hmem : c.monthYear ∈ as.map (fun x => x.monthYear)
      · simp [List.map_cons, ih, hmem, Ne.symm hac]
      · have : ¬ (c.monthYear = a.monthYear ∨
            c.monthYear ∈ as.map (fun x => x.monthYear)) := by
          rintro (h | h)
          · exact hac h.symm
          · exact hmem h
        simp [List.map_cons, ih, hmem, this, Ne.symm hac]

/-- Folding `replaceOrPush` over a sorted input yields a list whose months
are sorted and duplicate-free. -/
theorem dedup_foldl_sorted_nodup (l : List ValueHistoryItem) :
    ∀ acc : List ValueHistoryItem,
    (acc.map (fun x => x.monthYear)).Nodup →
    (acc.map (fun x => x.monthYear)).Pairwise (fun a b => a ≤ b) →
    (∀ mo ∈ acc.map (fun x => x.monthYear), ∀ x ∈ l, mo ≤ x.monthYear) →
    l.Pairwise (fun a b => a.monthYear ≤ b.monthYear) →
    ((l.foldl replaceOrPush acc).map (fun x => x.monthYear)).Nodup ∧
    ((l.foldl replaceOrPush acc).map (fun x => x.monthYear)).Pairwise
      (fun a b => a ≤ b) := by
  induction l with
  | nil => intro acc h1 h2 _ _; exact ⟨h1, h2⟩
  | cons c lrest ih =>
    intro acc h1 h2 hbound hsorted
    rw [List.foldl_cons]
    have hcrest : ∀ x ∈ lrest, c.monthYear ≤ x.monthYear :=
      (List.pairwise_cons.mp hsorted).1
    have htail : lrest.Pairwise (fun a b => a.monthYear ≤ b.monthYear) :=
      (List.pairwise_cons.mp hsorted).2
    apply ih
    · rw [months_replaceOrPush]
      by_cases hmem : c.monthYear ∈ acc.map (fun x => x.monthYear)
      · rw [if_pos hmem]; exact h1
      · rw [if_neg hmem]
        rw [List.nodup_append]
        exact ⟨h1, List.nodup_singleton _, by simpa using hmem⟩
    · rw [months_replaceOrPush]
      by_cases hmem : c.monthYear ∈ acc.map (fun x => x.monthYear)
      · rw [if_pos hmem]; exact h2
      · rw [if_neg hmem]
        rw [List.pairwise_append]
        refine ⟨h2, List.pairwise_singleton _ _, ?_⟩
        intro mo hmo y hy
        have := hbound mo hmo c (List.mem_cons_self _ _)
        simpa [List.mem_singleton.mp hy] using this
    · intro mo hmo x hx
      rw [months_replaceOrPush] at hmo
      by_cases hmem : c.monthYear ∈ acc.map (fun x => x.monthYear)
      · rw [if_pos hmem] at hmo
        exact hbound mo hmo x (List.mem_cons_of_mem _ hx)
      · rw [if_neg hmem] at hmo
        rcases List.mem_append.mp hmo with hmo | hmo
        · exact hbound mo hmo x (List.mem_cons_of_mem _ hx)
        · rw [List.mem_singleton.mp hmo]
          exact hcrest x hx
    · exact htail

/-- The entry the dedup fold leaves at a month is the last input entry of
that month (the accumulator's entry when the month never occurs). -/
theorem find?_dedup_foldl (l : List ValueHistoryItem) :
    ∀ (acc : List ValueHistoryItem) (mo : MonthYear),
    (l.foldl replaceOrPush acc).find? (fun x => x.monthYear == mo) =
      match (l.filter (fun x => x.monthYear == mo)).getLast? with
      | some y => some y
      | none => acc.find? (fun x => x.monthYear == mo) := by
  induction l with
  | nil => intro acc mo; rfl
  | cons c lrest ih =>
    intro acc mo
    rw [List.foldl_cons, ih, List.filter_cons]
    by_cases h : c.monthYear = mo
    · simp only [h, beq_self_eq_true, if_true]
      cases hget : (lrest.filter (fun x => x.monthYear == mo)).getLast? with
      | some y =>
        have hne : lrest.filter (fun x => x.monthYear == mo) ≠ [] := by
          intro hnil
          rw [hnil] at hget
          simp at hget
        rw [List.getLast?_cons, hget]
        rfl
      | none =>
        have hnil : lrest.filter (fun x => x.monthYear == mo) = [] :=
          List.getLast?_eq_none_iff.mp hget
        rw [List.getLast?_cons, hget]
        simp [find?_replaceOrPush, h]
    · have hb : (c.monthYear == mo) = false := by simpa using h
      simp only [hb, Bool.false_eq_true, if_false]
      cases hget : (lrest.filter (fun x => x.monthYear == mo)).getLast? with
      | some y => rfl
      | none => simp [find?_replaceOrPush, h]


/-- Stability of the ascending sort on the pushed entry's month class: the
entries of that month come out as the old ones (in order) followed by the
newly appended entry. -/
theorem mergeSort_filter_month (h : List ValueHistoryItem)
    (e : ValueHistoryItem) :
    ((h ++ [e]).mergeSort
        (fun a b => decide (a.monthYear ≤ b.monthYear))).filter
      (fun x => x.monthYear == e.monthYear) =
      h.filter (fun x => x.monthYear == e.monthYear) ++ [e] := by
  have trans : ∀ (a b c : ValueHistoryItem),
      decide (a.monthYear ≤ b.monthYear) = true →
      decide (b.monthYear ≤ c.monthYear) = true →
      decide (a.monthYear ≤ c.monthYear) = true := by
    intro a b c h1 h2
    simp only [decide_eq_true_eq] at h1 h2 ⊢
    exact MonthYear.le_trans_months h1 h2
  have total : ∀ (a b : ValueHistoryItem),
      (decide (a.monthYear ≤ b.monthYear) ||
        decide (b.monthYear ≤ a.monthYear)) = true := by
    intro a b
    rcases MonthYear.le_total_months a.monthYear b.monthYear with h1 | h1 <;>
      simp [h1]
  have hallc : ∀ x ∈ h.filter (fun x => x.monthYear == e.monthYear) ++ [e],
      x.monthYear = e.monthYear := by
    intro x hx
    rcases List.mem_append.mp hx with hx | hx
    · simpa using (List.mem_filter.mp hx).2
    · rw [List.mem_singleton.mp hx]
  have hc : (h.filter (fun x => x.monthYear == e.monthYear) ++ [e]).Pairwise
      (fun a b => decide (a.monthYear ≤ b.monthYear) = true) := by
    apply List.pairwise_of_forall_mem_list
    intro a ha b hb
    rw [hallc a ha, hallc b hb]
    simp only [decide_eq_true_eq]
    exact Nat.le_refl _
  have hsub : List.Sublist
      (h.filter (fun x => x.monthYear == e.monthYear) ++ [e]) (h ++ [e]) :=
    List.Sublist.append (List.filter_sublist h) (List.Sublist.refl [e])
  have hcS : List.Sublist
      (h.filter (fun x => x.monthYear == e.monthYear) ++ [e])
      ((h ++ [e]).mergeSort (fun a b => decide (a.monthYear ≤ b.monthYear))) :=
    List.sublist_mergeSort trans total hc hsub
  have hcf : List.Sublist
      (h.filter (fun x => x.monthYear == e.monthYear) ++ [e])
      (((h ++ [e]).mergeSort
        (fun a b => decide (a.monthYear ≤ b.monthYear))).filter
        (fun x => x.monthYear == e.monthYear)) := by
    have hfilter : (h.filter (fun x => x.monthYear == e.monthYear) ++
        [e]).filter (fun x => x.monthYear == e.monthYear) =
        h.filter (fun x => x.monthYear == e.monthYear) ++ [e] := by
      apply List.filter_eq_self.mpr
      intro a ha
      simp [hallc a ha]
    have hstep := hcS.filter (fun x => x.monthYear == e.monthYear)
    rwa [hfilter] at hstep
  have hperm : (((h ++ [e]).mergeSort
      (fun a b => decide (a.monthYear ≤ b.monthYear))).filter
        (fun x => x.monthYear == e.monthYear)).Perm
      (h.filter (fun x => x.monthYear == e.monthYear) ++ [e]) := by
    have h1 := (List.mergeSort_perm (h ++ [e])
      (fun a b => decide (a.monthYear ≤ b.monthYear))).filter
      (fun x => x.monthYear == e.monthYear)
    rwa [List.filter_append, List.filter_cons, List.filter_nil,
      beq_self_eq_true, if_pos rfl] at h1
  exact (hcf.eq_of_length hperm.length_eq.symm).symm

/-- C5: the history push returns a ledger that is sorted ascending by
month, holds at most one entry per month, and maps the pushed month to the
pushed entry itself — re-pushing an existing month overwrites (last write
wins).  The spec's concrete double push of `2024-05` follows. -/
theorem c5_history_push_ledger (h : List ValueHistoryItem)
    (e : ValueHistoryItem) :
    ((pushHistoryEntry h e).map (fun x => x.monthYear)).Pairwise
      (fun a b => a ≤ b) ∧
    ((pushHistoryEntry h e).map (fun x => x.monthYear)).Nodup ∧
    (pushHistoryEntry h e).find? (fun x => x.monthYear == e.monthYear) =
      some e ∧
    pushHistoryEntry (pushHistoryEntry [] ⟨⟨2024, 5⟩, 500, none⟩)
        ⟨⟨2024, 5⟩, 600, none⟩ = [⟨⟨2024, 5⟩, 600, none⟩] := by
  have trans : ∀ (a b c : ValueHistoryItem),
      decide (a.monthYear ≤ b.monthYear) = true →
      decide (b.monthYear ≤ c.monthYear) = true →
      decide (a.monthYear ≤ c.monthYear) = true := by
    intro a b c h1 h2
    simp only [decide_eq_true_eq] at h1 h2 ⊢
    exact MonthYear.le_trans_months h1 h2
  have total : ∀ (a b : ValueHistoryItem),
      (decide (a.monthYear ≤ b.monthYear) ||
        decide (b.monthYear ≤ a.monthYear)) = true := by
    intro a b
    rcases MonthYear.le_total_months a.monthYear b.monthYear with h1 | h1 <;>
      simp [h1]
  have hsortedS : ((h ++ [e]).mergeSort
      (fun a b => decide (a.monthYear ≤ b.monthYear))).Pairwise
      (fun a b => a.monthYear ≤ b.monthYear) := by
    have hs := List.sorted_mergeSort trans total (h ++ [e])
    exact hs.imp (fun hab => of_decide_eq_true hab)
  have hsn := dedup_foldl_sorted_nodup
    ((h ++ [e]).mergeSort (fun a b => decide (a.monthYear ≤ b.monthYear)))
    [] List.nodup_nil List.Pairwise.nil (by simp) hsortedS
  have hpush1 : pushHistoryEntry [] ⟨⟨2024, 5⟩, 500, none⟩ =
      [⟨⟨2024, 5⟩, 500, none⟩] := by
    unfold pushHistoryEntry dedupHistory
    rw [List.nil_append, List.mergeSort_singleton]
    rfl
  constructor
  · exact hsn.2
  constructor
  · exact hsn.1
  constructor
  · unfold pushHistoryEntry dedupHistory
    rw [find?_dedup_foldl, mergeSort_filter_month, List.getLast?_concat]
  · rw [hpush1]
    unfold pushHistoryEntry dedupHistory
    rw [List.mergeSort_of_sorted (by
      constructor
      · intro b hb
        rw [List.mem_singleton.mp hb]
        simp only [decide_eq_true_eq]
        exact Nat.le_refl _
      · exact List.Pairwise.cons (by simp) List.Pairwise.nil)]
    rfl
